import Mathlib

/-!
Verification of the `relations-sqlite3` adapter (`src/lib/relations_sqlite3.py`)
against its natural-language specification.

Strings are modelled as `List Char` (`Str`) so that every operation the code
performs on them (splitting on separators, lexicographic sorting, suffix
stripping) is executable and kernel-reducible.  Python's `str` comparison is
lexicographic on code points, which `lexLe` mirrors.

Components whose code lives in the external `relations_sql` / `relations_sqlite`
packages (the SQL expression classes and the migration compiler) are modelled
from the specification's words; each such definition carries a doc comment
starting with `Modelled from the spec:`.
-/

/-- Strings as character lists, so that all operations reduce in the kernel. -/
abbrev Str := List Char

/-- Lexicographic order on code points, as Python compares `str` values. -/
def lexLe : Str → Str → Bool
  | [], _ => true
  | _ :: _, [] => false
  | a :: as, b :: bs =>
    if a.toNat < b.toNat then true
    else if b.toNat < a.toNat then false
    else lexLe as bs

/-- Insert into a `lexLe`-sorted list, keeping it sorted (stable). -/
def lexInsert (s : Str) : List Str → List Str
  | [] => [s]
  | t :: ts => if lexLe s t then s :: t :: ts else t :: lexInsert s ts

/-- Insertion sort by `lexLe`: the model of Python's `sorted` on strings. -/
def sortStrL : List Str → List Str
  | [] => []
  | s :: ss => lexInsert s (sortStrL ss)

/-- Ascending order by `lexLe` (what "processed in ascending order" means). -/
def Ascending (l : List Str) : Prop := List.Pairwise (fun a b => lexLe a b = true) l

/-- Join a list of strings with a separator (Python's `sep.join`). -/
def strJoin (sep : Str) : List Str → Str
  | [] => []
  | [s] => s
  | s :: rest => s ++ sep ++ strJoin sep rest

/-- Split at the leftmost occurrence of `sep`, Python's `s.split(sep, 1)`:
`some (before, after)` when `sep` occurs, `none` otherwise. -/
def firstSplit (sep : Str) : Str → Option (Str × Str)
  | [] => none
  | c :: rest =>
    if sep.isPrefixOf (c :: rest) then some ([], (c :: rest).drop sep.length)
    else (firstSplit sep rest).map (fun pr => (c :: pr.1, pr.2))

/-- Split at the rightmost occurrence of `sep`, Python's `s.rsplit(sep, 1)`:
`some (before, after)` when `sep` occurs, `none` otherwise. -/
def lastSplit (sep : Str) : Str → Option (Str × Str)
  | [] => none
  | c :: rest =>
    match lastSplit sep rest with
    | some pr => some (c :: pr.1, pr.2)
    | none =>
      if sep.isPrefixOf (c :: rest) then some ([], (c :: rest).drop sep.length)
      else none

namespace Predicate

/-- A positional bind value: integers or strings. -/
inductive Val where
  | i : Int → Val
  | s : Str → Val
deriving DecidableEq

/-- The value attached to one criterion: a scalar, a list (for membership
operators), or a flag (for the null operator). -/
inductive CVal where
  | one : Val → CVal
  | many : List Val → CVal
  | flag : Bool → CVal
deriving DecidableEq

/-- The declarative filter operators of the predicate language. -/
inductive Op where
  | eq | gt | gte | lt | lte | like | notlike | null | inOp | ne
deriving DecidableEq

/-- The operator token as it appears in a criteria key such as `a__b__0___1__gt`. -/
def opName : Op → Str
  | .eq => "eq".data
  | .gt => "gt".data
  | .gte => "gte".data
  | .lt => "lt".data
  | .lte => "lte".data
  | .like => "like".data
  | .notlike => "notlike".data
  | .null => "null".data
  | .inOp => "in".data
  | .ne => "ne".data

/-- One criterion of `field.criteria`: a nested path (empty for a plain column
predicate), an operator and a value.  The Python code carries this as a packed
key `path__op`; the path is recovered there by `operator.rsplit("__", 1)[0]`,
which is `joinPath path` whenever the operator token contains no underscore
(true of every token of `opName`). -/
structure Criterion where
  path : List Str
  op : Op
  value : CVal
deriving DecidableEq

/-- `"__".join(path)`. -/
def joinPath (path : List Str) : Str := strJoin "__".data path

/-- A field as `Source.retrieve_field` sees it: storage column, criteria, and
the declared extraction paths (`field.extract`). -/
structure Field where
  store : Str
  criteria : List Criterion
  extract : List Str
deriving DecidableEq

/-- A query accumulating WHERE fragments, each paired with its bind values. -/
structure Query where
  wheres : List (Str × List Val)
deriving DecidableEq

/-- Backtick-quote a column name. -/
def ticks (col : Str) : Str := "`".data ++ col ++ "`".data

/-- Modelled from the spec: the JSON path-pointer serialization of the external
`relations` path encoding (§9: `a__b__0___1` style).  A digit-only segment is an
array index `[n]`, a segment `_n` with digits after the underscore is a quoted
numeric object key `."n"`, anything else is a plain object key `.seg`. -/
def pointerSeg (seg : Str) : Str :=
  if seg ≠ [] ∧ seg.all Char.isDigit then "[".data ++ seg ++ "]".data
  else
    match seg with
    | '_' :: rest =>
      if rest ≠ [] ∧ rest.all Char.isDigit then ".".data ++ "\"".data ++ rest ++ "\"".data
      else ".".data ++ seg
    | _ => ".".data ++ seg

/-- The full JSON path pointer, e.g. `$.a.b[0]."1"`. -/
def pointer (path : List Str) : Str := "$".data ++ (path.map pointerSeg).flatten

/-- SQL suffix of a comparison operator applied to an expression. -/
def cmpSql : Op → Str
  | .eq => "=?".data
  | .gt => ">?".data
  | .gte => ">=?".data
  | .lt => "<?".data
  | .lte => "<=?".data
  | _ => "=?".data

/-- `%value%`, the substring wrap of the pattern-match operator. -/
def likeWrap : Val → Val
  | .s s => .s ("%".data ++ s ++ "%".data)
  | .i n => .s ("%".data ++ (toString n).data ++ "%".data)

/-- Modelled from the spec: the operator table of the predicate compiler
(§4.3), applied to an already-rendered column expression.  Membership over an
empty list collapses to an unconditional `FALSE`/`TRUE` literal with no binds.
An operator/value combination outside the table emits the bare expression. -/
def applyOp (expr : Str) (op : Op) (v : CVal) : Str × List Val :=
  match op, v with
  | .inOp, .many vs =>
    if vs.isEmpty then ("FALSE".data, [])
    else (expr ++ " IN (".data ++ strJoin ",".data (vs.map (fun _ => "?".data)) ++ ")".data, vs)
  | .ne, .many vs =>
    if vs.isEmpty then ("TRUE".data, [])
    else (expr ++ " NOT IN (".data ++ strJoin ",".data (vs.map (fun _ => "?".data)) ++ ")".data, vs)
  | .like, .one w => (expr ++ " LIKE ?".data, [likeWrap w])
  | .notlike, .one w => (expr ++ " NOT LIKE ?".data, [likeWrap w])
  | .null, .flag b =>
    (if b then expr ++ " IS NULL".data else expr ++ " IS NOT NULL".data, [])
  | .ne, .one w => (expr ++ "!=?".data, [w])
  | op, .one w => (expr ++ cmpSql op, [w])
  | _, _ => (expr, [])

/-- Modelled from the spec: the external `relations_sqlite.OP` predicate
compiler (`compilePredicate`, §4.3).  For a nested path, a declared extraction
(`EXTRACTED=True`) routes to the precomputed column `<column>__<path>` and
binds only the comparison value; otherwise a runtime `json_extract` expression
over the raw column is emitted, binding the path pointer first. -/
def OP (col : Str) (path : List Str) (op : Op) (v : CVal) (extracted : Bool) :
    Str × List Val :=
  if path.isEmpty then applyOp (ticks col) op v
  else if extracted then applyOp (ticks (col ++ "__".data ++ joinPath path)) op v
  else
    let res := applyOp ("json_extract(".data ++ ticks col ++ ",?)".data) op v
    (res.1, .s (pointer path) :: res.2)

/-- The packed-key head `operator.rsplit("__", 1)[0]` of a criterion, whose
membership in `field.extract` decides the `EXTRACTED` flag
(`Source.retrieve_field`, src/lib/relations_sqlite3.py:197). -/
def keyHead (c : Criterion) : Str :=
  if c.path.isEmpty then opName c.op else joinPath c.path

/-- `Source.retrieve_field` (src/lib/relations_sqlite3.py:190-198): one WHERE
fragment per criteria entry, compiled by `OP` with the `EXTRACTED` flag set
exactly when the criterion's path is a declared extraction. -/
def retrieve_field (field : Field) (query : Query) : Query :=
  field.criteria.foldl
    (fun q c =>
      { wheres := q.wheres ++ [OP field.store c.path c.op c.value (field.extract.contains (keyHead c))] })
    query

end Predicate

namespace Retrieve

/-- The slice of model state that `Source.retrieve` reads and writes.  Rows are
abstract identifiers: the JSON decoding of row values (`values_retrieve`)
belongs to the external model layer and does not affect control flow. -/
structure Model where
  mode : Str
  role : Str
  _limit : Option Nat
  overflow : Bool
  record : Option Nat
  models : List Nat
  action : Str
deriving DecidableEq

/-- `Source.retrieve` (src/lib/relations_sqlite3.py:328-373), given the rows
the generated query returned.  A raised `ModelError` is `.error` with the
message; `.ok none` models the Python `return None`; `.ok (some m)` returns
the updated model.  Being a pure function, an error outcome carries no updated
model at all: the caller's model is untouched. -/
def retrieve (model : Model) (verify : Bool) (rows : List Nat) :
    Except Str (Option Model) :=
  if model.mode = "one".data ∧ rows.length > 1 then
    .error "more than one retrieved".data
  else if model.mode = "one".data ∧ model.role ≠ "child".data then
    match rows with
    | [] => if verify then .error "none retrieved".data else .ok none
    | r :: _ => .ok (some { model with record := some r, action := "update".data })
  else
    .ok (some { model with
      models := rows,
      overflow :=
        match model._limit with
        | some l => model.overflow || decide (l ≤ rows.length)
        | none => model.overflow,
      record := none,
      action := "update".data })

end Retrieve

/-- A one-mode model whose role is "child": the branch C7 overlooks. -/
def childOne : Retrieve.Model :=
  { mode := "one".data, role := "child".data, _limit := none, overflow := false,
    record := some 7, models := [], action := "retrieve".data }

namespace Update

/-- A compiled UPDATE/DELETE query: SET pairs, simple WHERE equalities, and
WHERE ... IN clauses.  Bind values are integers here; their encoding is the
external layer's concern. -/
structure Query where
  table : Str
  sets : List (Str × Int)
  wheres : List (Str × Int)
  whereIns : List (Str × List Int)
deriving DecidableEq

/-- The slice of model state `Source.update_query` / `Source.delete_query`
read: the action states, the mode, the id field (`model._id`, `none` when the
model has no id field), its storage name and current value, the record's mass-
and per-record update sets, the record's retrieve criteria, and the ids of the
models being iterated (`model._each()`). -/
structure Model where
  action : Str
  recordAction : Str
  mode : Str
  _id : Option Str
  idStore : Str
  idValue : Int
  massSets : List (Str × Int)
  updateSets : List (Str × Int)
  criteria : List (Str × Int)
  ids : List Int
deriving DecidableEq

/-- `Source.update_query` (src/lib/relations_sqlite3.py:398-424).  A raised
`ModelError` is `.error` with its message. -/
def update_query (m : Model) (table : Str) : Except Str Query :=
  if m.action = "retrieve".data ∧ m.recordAction = "update".data then
    .ok { table := table, sets := m.massSets, wheres := m.criteria, whereIns := [] }
  else if m._id.isSome then
    if m.mode = "many".data then .error "only one update query at a time".data
    else .ok { table := table, sets := m.updateSets,
               wheres := (m.idStore, m.idValue) :: m.criteria, whereIns := [] }
  else
    .error "nothing to update from".data

/-- `Source.delete_query` (src/lib/relations_sqlite3.py:468-491). -/
def delete_query (m : Model) (table : Str) : Except Str Query :=
  if m.action = "retrieve".data then
    .ok { table := table, sets := [], wheres := m.criteria, whereIns := [] }
  else if m._id.isSome then
    .ok { table := table, sets := [],  wheres := [],
          whereIns := [(m.idStore ++ "__in".data, m.ids)] }
  else
    .error "nothing to delete from".data

/-- `Source.update` (src/lib/relations_sqlite3.py:426-466): its result is the
list of statements actually executed (the per-model iteration of
`model._each("update")` is represented by the model itself; a query with an
empty SET list is skipped, as the code does).  The error branches are reached
before any statement is produced. -/
def update (m : Model) (table : Str) : Except Str (List Query) :=
  if m.action = "retrieve".data ∧ m.recordAction = "update".data then
    match update_query m table with
    | .ok uq => .ok [uq]
    | .error e => .error e
  else if m._id.isSome then
    match update_query m table with
    | .ok uq => .ok (if uq.sets.isEmpty then [] else [uq])
    | .error e => .error e
  else
    .error "nothing to update from".data

/-- `Source.delete` (src/lib/relations_sqlite3.py:493-505): executes whatever
`delete_query` compiles; a query error propagates before anything executes. -/
def delete (m : Model) (table : Str) : Except Str (List Query) :=
  match delete_query m table with
  | .ok dq => .ok [dq]
  | .error e => .error e

end Update

namespace Like

/-- A WHERE fragment emitted by the search compiler: a membership predicate
over parent ids, a pattern-match predicate (with its `extracted` flag), or the
OR-combination of a group of fragments, rendered parenthesized. -/
inductive Frag where
  | inPred : Str → List Int → Frag
  | likePred : Str → Str → Bool → Frag
  | orGroup : List Frag → Frag

/-- A field as `Source.like` sees it: its logical name, storage column,
declared title sub-paths (`field.titles`) and extraction keys. -/
structure Field where
  name : Str
  store : Str
  titles : List Str
  extract : List Str

/-- One parent relation: the child field's logical name, and the parent
lookup `relation.Parent.many(like=term).limit(chunk)` abstracted as a function
from the like term and chunk size to the matching parent identifiers together
with the parent model's own overflow flag. -/
structure Rel where
  child_field : Str
  lookup : Str → Nat → List Int × Bool

/-- The slice of model state `Source.like` reads and writes. -/
structure Model where
  _like : Option Str
  _titles : List Str
  fields : Str → Field
  parents : List Rel
  _chunk : Nat
  overflow : Bool

/-- A query accumulating WHERE terms. -/
structure Query where
  wheres : List Frag

/-- `name.split("__", 1)`: the field name and the optional remaining path. -/
def split1 (name : Str) : Str × Option Str :=
  match firstSplit "__".data name with
  | some pr => (pr.1, some pr.2)
  | none => (name, none)

/-- The `for relation in model.PARENTS.values()` loop of `Source.like`
(src/lib/relations_sqlite3.py:219-226), threading the accumulated OR-group
fragments, the overflow flag, and whether any relation matched the field
(Python's `parent` being truthy after the loop). -/
def relPass (t : Str) (chunk : Nat) (fld : Field) :
    List Rel → List Frag × Bool × Bool → List Frag × Bool × Bool
  | [], acc => acc
  | r :: rs, (frags, ovf, isPar) =>
    if fld.name = r.child_field then
      let res := r.lookup t chunk
      if res.1.isEmpty then relPass t chunk fld rs (frags, ovf, true)
      else relPass t chunk fld rs (frags ++ [.inPred fld.store res.1], ovf || res.2, true)
    else relPass t chunk fld rs (frags, ovf, isPar)

/-- The body of the `for name in model._titles` loop of `Source.like`
(src/lib/relations_sqlite3.py:210-236): parent relations first; otherwise one
pattern-match per declared sub-path (the title's own `__` path taking
precedence), or a single direct pattern-match for a plain field. -/
def likeStep (m : Model) (t : Str) (acc : List Frag × Bool) (title : Str) :
    List Frag × Bool :=
  let fname := (split1 title).1
  let rest := (split1 title).2
  let fld := m.fields fname
  let res := relPass t m._chunk fld m.parents (acc.1, acc.2, false)
  if res.2.2 then (res.1, res.2.1)
  else
    let paths := match rest with | some p => [p] | none => fld.titles
    if paths.isEmpty then (res.1 ++ [.likePred fld.store t false], res.2.1)
    else
      (res.1 ++ paths.map (fun p => .likePred (fld.store ++ "__".data ++ p) t (fld.extract.contains p)),
       res.2.1)

/-- `Source.like` (src/lib/relations_sqlite3.py:200-239): fold the loop body
over the title fields starting from an empty OR-group and the model's current
overflow flag; add the group as one WHERE term only if it is non-empty. -/
def like (m : Model) (q : Query) : Model × Query :=
  match m._like with
  | none => (m, q)
  | some t =>
    let res := m._titles.foldl (likeStep m t) ([], m.overflow)
    ({ m with overflow := res.2 },
     if res.1.isEmpty then q else { wheres := q.wheres ++ [.orGroup res.1] })

end Like

/-- A model with a like term set but zero title fields. -/
def likeC9Model : Like.Model :=
  { _like := some "p".data, _titles := [],
    fields := fun _ => { name := [], store := [], titles := [], extract := [] },
    parents := [], _chunk := 2, overflow := false }

/-- The spec's search scenario: the only title field `unit_id` is a foreign
key, and the chunk-limited (`_chunk = 1`) parent lookup returns id 2 with its
overflow flag set. -/
def likeC4Model : Like.Model :=
  { _like := some "p".data, _titles := ["unit_id".data],
    fields := fun _ => { name := "unit_id".data, store := "unit_id".data, titles := [], extract := [] },
    parents := [{ child_field := "unit_id".data, lookup := fun _ _ => ([2], true) }],
    _chunk := 1, overflow := false }

namespace Mig

/-- Modelled from the spec: a normalized FieldDefinition (§3), restricted to
the attributes the migration compiler's statement sequencing depends on —
logical name, storage column name and kind. -/
structure FieldDef where
  name : Str
  store : Str
  kind : Str
deriving DecidableEq

/-- Modelled from the spec: a normalized TableDefinition (§3) — the table
name, the ordered field list, and the named unique constraints and secondary
indexes (name, ordered column list). -/
structure TableDef where
  table : Str
  fields : List FieldDef
  uniques : List (Str × List Str)
  indexes : List (Str × List Str)
deriving DecidableEq

/-- Modelled from the spec: a normalized MigrationDelta (§3): field
add/remove/change sub-deltas and unique/index add/remove/rename sub-deltas,
plus the after-state table name carried by the migration. -/
structure Delta where
  table : Str
  fieldsAdd : List FieldDef
  fieldsRemove : List Str
  fieldsChange : List (Str × FieldDef)
  uniqueAdd : List (Str × List Str)
  uniqueRemove : List Str
  uniqueRename : List (Str × Str)
  indexAdd : List (Str × List Str)
  indexRemove : List Str
  indexRename : List (Str × Str)
deriving DecidableEq

/-- The statements the migration compiler emits. -/
inductive Stmt where
  | alterAdd : Str → FieldDef → Stmt
  | renameTable : Str → Str → Stmt
  | dropIndex : Str → Stmt
  | createTable : Str → List FieldDef → Stmt
  | createUnique : Str → List Str → Stmt
  | createIndex : Str → List Str → Stmt
  | insertSelect : Str → List (Str × Str) → Str → Stmt
  | dropTable : Str → Stmt
deriving DecidableEq

/-- Index names are `<table>_<constraintName>` with dashes folded to
underscores (spec §4.2). -/
def idxName (table n : Str) : Str :=
  table ++ "_".data ++ n.map (fun c => if c = '-' then '_' else c)

/-- The new definition of a changed field. -/
def lookupChange (ch : List (Str × FieldDef)) (n : Str) : Option FieldDef :=
  (ch.find? (fun c => c.1 = n)).map (fun c => c.2)

/-- Modelled from the spec: the after-state field list (§4.2 step 2) — the old
field list minus removed fields, with changed fields replaced by their new
FieldDefinition, plus the added fields folded in. -/
def afterFields (before : TableDef) (d : Delta) : List FieldDef :=
  (before.fields.filterMap (fun f =>
    if d.fieldsRemove.contains f.name then none
    else
      match lookupChange d.fieldsChange f.name with
      | some nf => some nf
      | none => some f)) ++ d.fieldsAdd

/-- Modelled from the spec: the after-state constraint list (§4.2 step 2) —
rename maps applied first, then additions, while honoring removals. -/
def afterCons (cons : List (Str × List Str)) (remove : List Str)
    (ren : List (Str × Str)) (add : List (Str × List Str)) : List (Str × List Str) :=
  (cons.filterMap (fun c =>
    if remove.contains c.1 then none
    else
      match (ren.find? (fun r => r.1 = c.1)).map (fun r => r.2) with
      | some nn => some (nn, c.2)
      | none => some c)) ++ add

/-- The column projection of the data-copy statement: the intersection of the
old column names (additions included, since the additive `ALTER`s run before
the rename) and the new column names, sorted lexicographically, each aliased
to itself. -/
def proj (before : TableDef) (d : Delta) : List (Str × Str) :=
  (sortStrL (((before.fields ++ d.fieldsAdd).map (fun f => f.store)).filter
    (fun c => ((afterFields before d).map (fun f => f.store)).contains c))).map
    (fun c => (c, c))

/-- Modelled from the spec: the migration compiler `model_change`
(`compileMigration`, §4.2).  Additive columns are emitted in place; any field
removal or change forces the rebuild: rename to `_old_<table>`, drop every
existing index, `CREATE TABLE` for the after state, recreate the after-state
constraints, copy the common columns forward with `INSERT … SELECT`, and drop
the renamed original.  With only constraint changes, named indexes are dropped
and recreated in place without a rebuild (§4.2 step 3). -/
def model_change (before : TableDef) (d : Delta) : List Stmt :=
  let adds := d.fieldsAdd.map (fun f => Stmt.alterAdd before.table f)
  if d.fieldsRemove.isEmpty ∧ d.fieldsChange.isEmpty then
    adds
    ++ (d.uniqueRemove ++ d.uniqueRename.map (fun r => r.1)
        ++ d.indexRemove ++ d.indexRename.map (fun r => r.1)).map
          (fun n => Stmt.dropIndex (idxName before.table n))
    ++ (d.uniqueRename.map (fun r =>
          match (before.uniques.find? (fun c => c.1 = r.1)).map (fun c => c.2) with
          | some cols => Stmt.createUnique (idxName before.table r.2) cols
          | none => Stmt.createUnique (idxName before.table r.2) [])
        ++ d.uniqueAdd.map (fun c => Stmt.createUnique (idxName before.table c.1) c.2))
    ++ (d.indexRename.map (fun r =>
          match (before.indexes.find? (fun c => c.1 = r.1)).map (fun c => c.2) with
          | some cols => Stmt.createIndex (idxName before.table r.2) cols
          | none => Stmt.createIndex (idxName before.table r.2) [])
        ++ d.indexAdd.map (fun c => Stmt.createIndex (idxName before.table c.1) c.2))
  else
    let tmp := "_old_".data ++ before.table
    adds
    ++ [Stmt.renameTable before.table tmp]
    ++ (before.uniques ++ before.indexes).map (fun c => Stmt.dropIndex (idxName before.table c.1))
    ++ [Stmt.createTable d.table (afterFields before d)]
    ++ (afterCons before.uniques d.uniqueRemove d.uniqueRename d.uniqueAdd).map
        (fun c => Stmt.createUnique (idxName d.table c.1) c.2)
    ++ (afterCons before.indexes d.indexRemove d.indexRename d.indexAdd).map
        (fun c => Stmt.createIndex (idxName d.table c.1) c.2)
    ++ [Stmt.insertSelect d.table (proj before d) tmp]
    ++ [Stmt.dropTable tmp]

/-- Statement discriminators for the counting part of the rebuild contract. -/
def isRenameTable : Stmt → Bool
  | .renameTable _ _ => true
  | _ => false

def isCreateTable : Stmt → Bool
  | .createTable _ _ => true
  | _ => false

def isInsertSelect : Stmt → Bool
  | .insertSelect _ _ _ => true
  | _ => false

def isDropTable : Stmt → Bool
  | .dropTable _ => true
  | _ => false

end Mig

-- The repository's `test_model_change` input: the data-copy projection is the
-- alphabetically sorted intersection of old (post-add) and new column names.
def migTestBefore : Mig.TableDef :=
  { table := "simple".data,
    fields := [
      { name := "id".data, store := "id".data, kind := "int".data },
      { name := "name".data, store := "name".data, kind := "str".data },
      { name := "fie".data, store := "fie".data, kind := "int".data },
      { name := "foe".data, store := "foe".data, kind := "int".data }],
    uniques := [("foe".data, ["foe".data]), ("labels".data, ["name".data, "id".data])],
    indexes := [("speedy".data, ["id".data, "name".data]), ("fie".data, ["fie".data]),
                ("name".data, ["name".data])] }

def migTestDelta : Mig.Delta :=
  { table := "simples".data,
    fieldsAdd := [{ name := "fee".data, store := "fee".data, kind := "int".data }],
    fieldsRemove := ["fie".data],
    fieldsChange := [("foe".data, { name := "fum".data, store := "foe".data, kind := "float".data })],
    uniqueAdd := [("fee".data, ["fee".data])],
    uniqueRemove := ["foe".data],
    uniqueRename := [("labels".data, "label".data)],
    indexAdd := [("foe-fee".data, ["foe".data, "fee".data])],
    indexRemove := ["fie".data],
    indexRename := [("speedy".data, "speed".data)] }

namespace Ledger

/-- `"/migration-"`, the separator `Source.migrate` rsplits paths on. -/
def migSep : Str := "/migration-".data

/-- The stamp of a migration file path:
`migration_path.rsplit("/migration-", 1)[-1].split('.')[0]`
(src/lib/relations_sqlite3.py:608,619). -/
def extractStamp (p : Str) : Str :=
  (match lastSplit migSep p with
   | some pr => pr.2
   | none => p).takeWhile (fun c => c != '.')

/-- The migration file path `Source.migrate` globs for a stamp. -/
def mkMigPath (dir s : Str) : Str := dir ++ migSep ++ s ++ ".sql".data

/-- The consolidated baseline definition file `{source_path}/definition.sql`. -/
def defPath (dir : Str) : Str := dir ++ "/definition.sql".data

/-- Observable actions of a migration run: the idempotent ledger-table
creation, a bulk stamp insert, a single stamp insert, a commit, and the
loading (execution) of a file. -/
inductive Act where
  | define : Act
  | insertBatch : List Str → Act
  | insertOne : Str → Act
  | commit : Act
  | load : Str → Act
deriving DecidableEq

/-- The result of a run: the ledger rows, the action trace, the returned
`migrated` flag, and the file whose load raised, if any. -/
structure MigRes where
  ledger : List Str
  acts : List Act
  migrated : Bool
  failed : Option Str
deriving DecidableEq

/-- The `for migration_path in migration_paths` loop of the non-empty-ledger
branch of `Source.migrate` (src/lib/relations_sqlite3.py:618-624): membership
is tested against the `stamps` snapshot read before the loop; each missing
stamp is inserted and committed, then its payload is loaded; a load raising
(`fails` lists the files whose load raises) aborts the run, after the stamp
row was already committed. -/
def migrateLoop (snapshot fails : List Str) : List Str → MigRes → MigRes
  | [], r => r
  | p :: ps, r =>
    if extractStamp p ∈ snapshot then migrateLoop snapshot fails ps r
    else
      if p ∈ fails then
        { r with ledger := r.ledger ++ [extractStamp p],
                 acts := r.acts ++ [.insertOne (extractStamp p), .commit],
                 failed := some p }
      else
        migrateLoop snapshot fails ps
          { r with ledger := r.ledger ++ [extractStamp p],
                   acts := r.acts ++ [.insertOne (extractStamp p), .commit, .load p],
                   migrated := true }

/-- `Source.migrate` (src/lib/relations_sqlite3.py:579-626).  `paths` is the
glob result for `migration-*.sql` (sorted before processing, as the code
does), `db` the stamps already in the ledger.  With an empty ledger the batch
insert starts with the sentinel stamp `"definition"` (the
`Migration().bulk().add("definition")` call), then every migration stamp in
sorted-path order, one commit, and only the baseline file is loaded. -/
def migrate (dir : Str) (paths : List Str) (db : List Str) (fails : List Str) : MigRes :=
  if db.isEmpty then
    let batch := "definition".data :: (sortStrL paths).map extractStamp
    if defPath dir ∈ fails then
      { ledger := db ++ batch, acts := [.define, .insertBatch batch, .commit],
        migrated := false, failed := some (defPath dir) }
    else
      { ledger := db ++ batch,
        acts := [.define, .insertBatch batch, .commit, .load (defPath dir)],
        migrated := true, failed := none }
  else
    migrateLoop db fails (sortStrL paths)
      { ledger := db, acts := [.define], migrated := false, failed := none }

end Ledger

theorem lexLe_total (a b : Str) : lexLe a b = true ∨ lexLe b a = true := by
  induction a generalizing b with
  | nil => left; rfl
  | cons x xs ih =>
    cases b with
    | nil => right; rfl
    | cons y ys =>
      simp only [lexLe]
      rcases Nat.lt_trichotomy x.toNat y.toNat with h | h | h
      · left; simp [h]
      · have hxy : ¬ x.toNat < y.toNat := by omega
        have hyx : ¬ y.toNat < x.toNat := by omega
        simpa [hxy, hyx] using ih ys
      · right; simp [h]

theorem mem_lexInsert (x s : Str) (l : List Str) :
    x ∈ lexInsert s l ↔ x = s ∨ x ∈ l := by
  induction l with
  | nil => simp [lexInsert]
  | cons t ts ih =>
    cases h : lexLe s t with
    | true => simp [lexInsert, h]
    | false =>
      simp only [lexInsert, h, Bool.false_eq_true, if_false, List.mem_cons, ih]
      tauto

theorem mem_sortStrL (x : Str) (l : List Str) : x ∈ sortStrL l ↔ x ∈ l := by
  induction l with
  | nil => simp [sortStrL]
  | cons s ss ih => simp [sortStrL, mem_lexInsert, ih]

theorem lexLe_trans (a b c : Str) (hab : lexLe a b = true) (hbc : lexLe b c = true) :
    lexLe a c = true := by
  induction a generalizing b c with
  | nil => rfl
  | cons x xs ih =>
    cases b with
    | nil => simp [lexLe] at hab
    | cons y ys =>
      cases c with
      | nil => simp [lexLe] at hbc
      | cons z zs =>
        simp only [lexLe] at hab hbc ⊢
        by_cases hxy : x.toNat < y.toNat
        · by_cases hyz : y.toNat < z.toNat
          · have hxz : x.toNat < z.toNat := by omega
            simp [hxz]
          · have hzy : ¬ z.toNat < y.toNat := by
              intro hzy
              simp [hyz, hzy] at hbc
            have hxz : x.toNat < z.toNat := by omega
            simp [hxz]
        · have hyx : ¬ y.toNat < x.toNat := by
            intro hyx
            simp [hxy, hyx] at hab
          have hab' : lexLe xs ys = true := by simpa [hxy, hyx] using hab
          by_cases hyz : y.toNat < z.toNat
          · have hxz : x.toNat < z.toNat := by omega
            simp [hxz]
          · have hzy : ¬ z.toNat < y.toNat := by
              intro hzy
              simp [hyz, hzy] at hbc
            have hbc' : lexLe ys zs = true := by simpa [hyz, hzy] using hbc
            have hxz : ¬ x.toNat < z.toNat := by omega
            have hzx : ¬ z.toNat < x.toNat := by omega
            simpa [hxz, hzx] using ih ys zs hab' hbc'

theorem lexInsert_ascending (s : Str) (l : List Str) (h : Ascending l) :
    Ascending (lexInsert s l) := by
  induction l with
  | nil => simp [Ascending, lexInsert]
  | cons t ts ih =>
    have hts : Ascending ts := (List.pairwise_cons.mp h).2
    have hhead : ∀ z ∈ ts, lexLe t z = true := (List.pairwise_cons.mp h).1
    by_cases hle : lexLe s t = true
    · simp only [Ascending, lexInsert, hle, if_true]
      refine List.pairwise_cons.mpr ⟨?_, h⟩
      intro z hz
      rcases List.mem_cons.mp hz with rfl | hz'
      · exact hle
      · exact lexLe_trans s t z hle (hhead z hz')
    · simp only [Ascending, lexInsert, hle, if_false]
      refine List.pairwise_cons.mpr ⟨?_, ih hts⟩
      intro z hz
      rcases (mem_lexInsert z s ts).mp hz with rfl | hz'
      · rcases lexLe_total z t with hh | hh
        · exact absurd hh hle
        · exact hh
      · exact hhead z hz'

theorem sortStrL_ascending (l : List Str) : Ascending (sortStrL l) := by
  induction l with
  | nil => simp [Ascending, sortStrL]
  | cons s ss ih => exact lexInsert_ascending s (sortStrL ss) ih

example :
    Predicate.retrieve_field
      { store := "meta".data,
        criteria := [{ path := ["a".data, "b".data, "0".data, "_1".data], op := .eq, value := .one (.i 1) }],
        extract := [] }
      { wheres := [] }
    = { wheres := [("json_extract(`meta`,?)=?".data,
        [.s "$.a.b[0].\"1\"".data, .i 1])] } := by decide

example :
    Predicate.retrieve_field
      { store := "meta".data,
        criteria := [{ path := ["a".data, "b".data, "0".data, "_1".data], op := .eq, value := .one (.i 1) }],
        extract := ["a__b__0___1".data] }
      { wheres := [] }
    = { wheres := [("`meta__a__b__0___1`=?".data, [.i 1])] } := by decide

example :
    Predicate.OP "id".data [] .inOp (.many [.i 1, .i 2, .i 3]) false
    = ("`id` IN (?,?,?)".data, [.i 1, .i 2, .i 3]) := by decide

example :
    Predicate.OP "id".data [] .like (.one (.i 1)) false
    = ("`id` LIKE ?".data, [.s "%1%".data]) := by decide

/-- C5: for a predicate on a structured field with a nested path, if the path
matches a declared extraction the emitted fragment references the precomputed
column `<column>__<path>` and binds only the comparison value; otherwise the
operator is applied to a runtime `json_extract` expression over the raw column,
binding the JSON path pointer followed by the comparison value. -/
theorem Predicate.retrieve_field_extraction_routing
    (f : Predicate.Field) (q : Predicate.Query) (path : List Str)
    (op : Predicate.Op) (w : Predicate.Val)
    (hc : f.criteria = [{ path := path, op := op, value := .one w }])
    (hp : path ≠ [])
    (hop : op = .eq ∨ op = .gt ∨ op = .gte ∨ op = .lt ∨ op = .lte) :
    (f.extract.contains (Predicate.joinPath path) = true →
      Predicate.retrieve_field f q =
        { wheres := q.wheres ++
            [(Predicate.ticks (f.store ++ "__".data ++ Predicate.joinPath path) ++ Predicate.cmpSql op,
              [w])] })
    ∧ (f.extract.contains (Predicate.joinPath path) = false →
      Predicate.retrieve_field f q =
        { wheres := q.wheres ++
            [("json_extract(".data ++ Predicate.ticks f.store ++ ",?)".data ++ Predicate.cmpSql op,
              [.s (Predicate.pointer path), w])] }) := by
  have hpe : path.isEmpty = false := by
    cases path with
    | nil => exact absurd rfl hp
    | cons a as => rfl
  constructor
  · intro hx
    have hmem : Predicate.joinPath path ∈ f.extract := by simpa using hx
    rcases hop with rfl | rfl | rfl | rfl | rfl <;>
      simp [Predicate.retrieve_field, hc, Predicate.keyHead, Predicate.OP, hpe, hp, hmem,
        Predicate.applyOp, Predicate.cmpSql]
  · intro hx
    have hmem : Predicate.joinPath path ∉ f.extract := by simpa using hx
    rcases hop with rfl | rfl | rfl | rfl | rfl <;>
      simp [Predicate.retrieve_field, hc, Predicate.keyHead, Predicate.OP, hpe, hp, hmem,
        Predicate.applyOp, Predicate.cmpSql]

/-- Witness for C5 at the repository's own test input (`meta`, path
`a__b__0___1`, operator `eq`, value `1`, no declared extraction). -/
theorem Predicate.retrieve_field_extraction_routing_witness :
    Predicate.retrieve_field
      { store := "meta".data,
        criteria := [{ path := ["a".data, "b".data, "0".data, "_1".data], op := .eq, value := .one (.i 1) }],
        extract := [] }
      { wheres := [] }
    = { wheres := [("json_extract(`meta`,?)=?".data, [.s "$.a.b[0].\"1\"".data, .i 1])] } :=
  (Predicate.retrieve_field_extraction_routing
    { store := "meta".data,
      criteria := [{ path := ["a".data, "b".data, "0".data, "_1".data], op := .eq, value := .one (.i 1) }],
      extract := [] }
    { wheres := [] }
    ["a".data, "b".data, "0".data, "_1".data] .eq (.i 1)
    rfl (by decide) (Or.inl rfl)).2 (by decide)

/-- C6: the membership predicate compiler emits an unconditional `FALSE`
(resp. `TRUE`) fragment with zero binds for an empty `in` (resp. `ne`/not-in)
value list, and `col IN (?,...)` (resp. `col NOT IN (?,...)`) with exactly the
n values as binds for a non-empty list of n values. -/
theorem Predicate.membership_empty_collapse (col : Str) (vs : List Predicate.Val) :
    (vs = [] →
      Predicate.OP col [] .inOp (.many vs) false = ("FALSE".data, [])
      ∧ Predicate.OP col [] .ne (.many vs) false = ("TRUE".data, []))
    ∧ (vs ≠ [] →
      Predicate.OP col [] .inOp (.many vs) false
        = (Predicate.ticks col ++ " IN (".data ++
            strJoin ",".data (List.replicate vs.length "?".data) ++ ")".data, vs)
      ∧ Predicate.OP col [] .ne (.many vs) false
        = (Predicate.ticks col ++ " NOT IN (".data ++
            strJoin ",".data (List.replicate vs.length "?".data) ++ ")".data, vs)) := by
  constructor
  · rintro rfl
    exact ⟨rfl, rfl⟩
  · intro hvs
    have hpe : vs.isEmpty = false := by
      cases vs with
      | nil => exact absurd rfl hvs
      | cons a as => rfl
    have hmap : vs.map (fun _ => "?".data) = List.replicate vs.length "?".data := by
      induction vs with
      | nil => rfl
      | cons a as ih => simp [List.replicate, ih]
    constructor <;> simp [Predicate.OP, Predicate.applyOp, hpe, hmap]

/-- Witness for C6 at the empty list. -/
theorem Predicate.membership_empty_collapse_witness :
    Predicate.OP "id".data [] .inOp (.many []) false = ("FALSE".data, [])
    ∧ Predicate.OP "id".data [] .ne (.many []) false = ("TRUE".data, []) :=
  (Predicate.membership_empty_collapse "id".data []).1 rfl

/-- C7 counterexample: for a one-mode model with role `"child"`, zero rows and
`verify = true`, `Source.retrieve` does not raise "none retrieved" — it takes
the many-style branch and returns the model with an empty `_models` list
(src/lib/relations_sqlite3.py:347 guards on `model._role != "child"`). -/
theorem Retrieve.retrieve_none_counterexample :
    Retrieve.retrieve childOne true []
      = .ok (some { childOne with record := none, action := "update".data })
    ∧ childOne.mode = "one".data := by
  constructor
  · rfl
  · rfl

/-- C7 (amended): in single-result mode, more than one row raises
"more than one retrieved"; and — provided the model's role is not `"child"` —
zero rows raise "none retrieved" when the verify flag is set and return `None`
(no model) when it is not.  Errors carry no updated model, so the record is
never mutated on an error path. -/
theorem Retrieve.retrieve_one_mode
    (m : Retrieve.Model) (verify : Bool) (rows : List Nat)
    (hmode : m.mode = "one".data) :
    (rows.length > 1 →
      Retrieve.retrieve m verify rows = .error "more than one retrieved".data)
    ∧ (m.role ≠ "child".data → rows = [] →
        (verify = true → Retrieve.retrieve m verify rows = .error "none retrieved".data)
        ∧ (verify = false → Retrieve.retrieve m verify rows = .ok none)) := by
  constructor
  · intro hlen
    simp [Retrieve.retrieve, hmode, hlen]
  · intro hrole hrows
    subst hrows
    constructor <;> intro hv <;> subst hv <;> simp [Retrieve.retrieve, hmode, hrole]

/-- Witness for the amended C7 at concrete inputs. -/
theorem Retrieve.retrieve_one_mode_witness :
    Retrieve.retrieve
      { mode := "one".data, role := "".data, _limit := none, overflow := false,
        record := none, models := [], action := "retrieve".data } true [1, 2]
      = .error "more than one retrieved".data :=
  (Retrieve.retrieve_one_mode
    { mode := "one".data, role := "".data, _limit := none, overflow := false,
      record := none, models := [], action := "retrieve".data } true [1, 2] rfl).1
    (by decide)

/-- C8: a model that is not in retrieve mode and has no id field raises
"nothing to update from" / "nothing to delete from" from the query compilers
and the executors alike; the `.error` results carry no statement list, so the
request is never a silent no-op and no SQL for it is ever produced. -/
theorem Update.no_criteria_errors (m : Update.Model) (table : Str)
    (hact : m.action ≠ "retrieve".data) (hid : m._id = none) :
    Update.update_query m table = .error "nothing to update from".data
    ∧ Update.delete_query m table = .error "nothing to delete from".data
    ∧ Update.update m table = .error "nothing to update from".data
    ∧ Update.delete m table = .error "nothing to delete from".data := by
  have hsome : m._id.isSome = false := by simp [hid]
  refine ⟨?_, ?_, ?_, ?_⟩
  · simp [Update.update_query, hact, hsome]
  · simp [Update.delete_query, hact, hsome]
  · simp [Update.update, Update.update_query, hact, hsome]
  · simp [Update.delete, Update.delete_query, hact, hsome]

/-- Witness for C8 at a concrete model with no identifying criteria. -/
theorem Update.no_criteria_errors_witness :
    Update.update_query
      { action := "create".data, recordAction := "create".data, mode := "one".data,
        _id := none, idStore := "id".data, idValue := 0, massSets := [],
        updateSets := [], criteria := [], ids := [] } "unit".data
      = .error "nothing to update from".data
    ∧ Update.delete_query
      { action := "create".data, recordAction := "create".data, mode := "one".data,
        _id := none, idStore := "id".data, idValue := 0, massSets := [],
        updateSets := [], criteria := [], ids := [] } "unit".data
      = .error "nothing to delete from".data :=
  let m : Update.Model :=
    { action := "create".data, recordAction := "create".data, mode := "one".data,
      _id := none, idStore := "id".data, idValue := 0, massSets := [],
      updateSets := [], criteria := [], ids := [] }
  let h := Update.no_criteria_errors m "unit".data (by decide) rfl
  ⟨h.1, h.2.1⟩

theorem Like.relPass_spec (t : Str) (chunk : Nat) (fld : Like.Field)
    (rels : List Like.Rel) (frags : List Like.Frag) (ovf isPar : Bool) :
    ∃ extra ovf' isPar',
      Like.relPass t chunk fld rels (frags, ovf, isPar) = (frags ++ extra, ovf', isPar')
      ∧ (extra = [] → ovf' = ovf)
      ∧ (ovf = true → ovf' = true) := by
  induction rels generalizing frags ovf isPar with
  | nil => exact ⟨[], ovf, isPar, by simp [Like.relPass], fun _ => rfl, fun h => h⟩
  | cons r rs ih =>
    by_cases hm : fld.name = r.child_field
    · cases he : (r.lookup t chunk).1.isEmpty with
      | true =>
        obtain ⟨extra, ovf', isPar', heq, h1, h2⟩ := ih frags ovf true
        exact ⟨extra, ovf', isPar', by simp [Like.relPass, hm, he, heq], h1, h2⟩
      | false =>
        obtain ⟨extra, ovf', isPar', heq, h1, h2⟩ :=
          ih (frags ++ [.inPred fld.store (r.lookup t chunk).1]) (ovf || (r.lookup t chunk).2) true
        refine ⟨.inPred fld.store (r.lookup t chunk).1 :: extra, ovf', isPar', ?_, ?_, ?_⟩
        · simpa [Like.relPass, hm, he] using heq
        · intro hx; exact absurd hx (by simp)
        · intro hov; exact h2 (by simp [hov])
    · obtain ⟨extra, ovf', isPar', heq, h1, h2⟩ := ih frags ovf isPar
      exact ⟨extra, ovf', isPar', by simp [Like.relPass, hm, heq], h1, h2⟩

theorem Like.likeStep_spec (m : Like.Model) (t : Str) (fs : List Like.Frag)
    (ov : Bool) (title : Str) :
    ∃ extra ov',
      Like.likeStep m t (fs, ov) title = (fs ++ extra, ov')
      ∧ (extra = [] → ov' = ov)
      ∧ (ov = true → ov' = true) := by
  obtain ⟨e, o, p, heq, h1, h2⟩ :=
    Like.relPass_spec t m._chunk (m.fields (Like.split1 title).1) m.parents fs ov false
  cases p with
  | true =>
    exact ⟨e, o, by simp [Like.likeStep, heq], h1, h2⟩
  | false =>
    by_cases hp :
        (match (Like.split1 title).2 with
          | some p => [p]
          | none => (m.fields (Like.split1 title).1).titles).isEmpty
    · refine ⟨e ++ [.likePred (m.fields (Like.split1 title).1).store t false], o, ?_, ?_, h2⟩
      · simp [Like.likeStep, heq, hp]
      · intro hx; exact absurd hx (by simp)
    · refine ⟨e ++ (match (Like.split1 title).2 with
          | some p => [p]
          | none => (m.fields (Like.split1 title).1).titles).map
            (fun p => .likePred ((m.fields (Like.split1 title).1).store ++ "__".data ++ p) t
              ((m.fields (Like.split1 title).1).extract.contains p)), o, ?_, ?_, h2⟩
      · simp [Like.likeStep, heq, hp]
      · intro hx
        rcases List.append_eq_nil.mp hx with ⟨he, hmap⟩
        have : (match (Like.split1 title).2 with
          | some p => [p]
          | none => (m.fields (Like.split1 title).1).titles) = [] := by
          simpa using hmap
        rw [List.isEmpty_iff] at hp
        exact absurd this hp

theorem Like.foldl_likeStep_spec (m : Like.Model) (t : Str) (titles : List Str)
    (fs : List Like.Frag) (ov : Bool) :
    ∃ extra ov',
      titles.foldl (Like.likeStep m t) (fs, ov) = (fs ++ extra, ov')
      ∧ (extra = [] → ov' = ov)
      ∧ (ov = true → ov' = true) := by
  induction titles generalizing fs ov with
  | nil => exact ⟨[], ov, by simp, fun _ => rfl, fun h => h⟩
  | cons ti ts ih =>
    obtain ⟨e1, o1, heq1, h11, h12⟩ := Like.likeStep_spec m t fs ov ti
    obtain ⟨e2, o2, heq2, h21, h22⟩ := ih (fs ++ e1) o1
    refine ⟨e1 ++ e2, o2, ?_, ?_, ?_⟩
    · simp [List.foldl_cons, heq1, heq2]
    · intro hx
      rcases List.append_eq_nil.mp hx with ⟨he1, he2⟩
      rw [h21 he2, h11 he1]
    · intro hov; exact h22 (h12 hov)

/-- C9: `Source.like` combines all emitted per-field fragments with OR into a
single group added as one WHERE term; with no like term, with zero title
fields, or when no fragment was emitted at all, the query is unchanged and the
overflow flag keeps its value (in particular it remains false). -/
theorem Like.like_or_group (m : Like.Model) (q : Like.Query) :
    (m._like = none → Like.like m q = (m, q))
    ∧ (m._titles = [] → Like.like m q = (m, q))
    ∧ (∀ t, m._like = some t →
        ((m._titles.foldl (Like.likeStep m t) ([], m.overflow)).1 = [] →
          Like.like m q = (m, q))
        ∧ ((m._titles.foldl (Like.likeStep m t) ([], m.overflow)).1 ≠ [] →
          (Like.like m q).2.wheres
            = q.wheres ++ [Like.Frag.orGroup
                (m._titles.foldl (Like.likeStep m t) ([], m.overflow)).1])) := by
  refine ⟨?_, ?_, ?_⟩
  · intro h; simp [Like.like, h]
  · intro h
    cases hl : m._like with
    | none => simp [Like.like, hl]
    | some t =>
      simp [Like.like, hl, h]
      rw [← hl, ← h]
  · intro t ht
    obtain ⟨extra, ov', heq, h1, h2⟩ := Like.foldl_likeStep_spec m t m._titles [] m.overflow
    constructor
    · intro hr1
      have hex : extra = [] := by
        rw [heq] at hr1; simpa using hr1
      have hov : ov' = m.overflow := h1 hex
      simp [Like.like, ht, heq, hex, hov]
      rw [← ht]
    · intro hr1
      have hie : (m._titles.foldl (Like.likeStep m t) ([], m.overflow)).1.isEmpty = false := by
        cases hr : (m._titles.foldl (Like.likeStep m t) ([], m.overflow)).1 with
        | nil => exact absurd hr hr1
        | cons a as => simp [hr]
      simp only [Like.like, ht]
      rw [show (m._titles.foldl (Like.likeStep m t) ([], m.overflow)) = ((m._titles.foldl (Like.likeStep m t) ([], m.overflow)).1, (m._titles.foldl (Like.likeStep m t) ([], m.overflow)).2) from rfl]
      simp [hie]

/-- Witness for C9: with zero title fields the query and the model (overflow
included) come back unchanged. -/
theorem Like.like_or_group_witness :
    Like.like likeC9Model { wheres := [] } = (likeC9Model, { wheres := [] }) :=
  (Like.like_or_group likeC9Model { wheres := [] }).2.1 rfl

/-- C4: for a title field that is a foreign key to a parent relation, the
parent lookup (invoked with the model's like term and chunk size) either
returns no identifiers — then no predicate at all is emitted for the field and
the model is unchanged — or returns some, in which case a single IN predicate
over exactly those identifiers is the emitted fragment and the model's
overflow flag is OR-ed with the parent result's overflow flag. -/
theorem Like.like_parent_membership
    (m : Like.Model) (q : Like.Query) (t title : Str) (r : Like.Rel)
    (hlike : m._like = some t)
    (htitles : m._titles = [title])
    (hpar : m.parents = [r])
    (hmatch : (m.fields (Like.split1 title).1).name = r.child_field) :
    ((r.lookup t m._chunk).1 = [] → Like.like m q = (m, q))
    ∧ ((r.lookup t m._chunk).1 ≠ [] →
        (Like.like m q).2.wheres
          = q.wheres ++ [Like.Frag.orGroup
              [Like.Frag.inPred (m.fields (Like.split1 title).1).store (r.lookup t m._chunk).1]]
        ∧ (Like.like m q).1.overflow = (m.overflow || (r.lookup t m._chunk).2)) := by
  constructor
  · intro hids
    have hie : (r.lookup t m._chunk).1.isEmpty = true := by simp [hids]
    simp [Like.like, hlike, htitles, Like.likeStep, Like.relPass, hpar, hmatch, hie]
    rw [← hlike, ← htitles, ← hpar]
  · intro hids
    have hie : (r.lookup t m._chunk).1.isEmpty = false := by
      cases hl : (r.lookup t m._chunk).1 with
      | nil => exact absurd hl hids
      | cons a as => simp [hl]
    constructor <;>
      simp [Like.like, hlike, htitles, Like.likeStep, Like.relPass, hpar, hmatch, hie]

/-- Witness for C4: the emitted group is `unit_id IN (2)` and the parent's
overflow propagates. -/
theorem Like.like_parent_membership_witness :
    (Like.like likeC4Model { wheres := [] }).2.wheres
      = [Like.Frag.orGroup [Like.Frag.inPred "unit_id".data [2]]]
    ∧ (Like.like likeC4Model { wheres := [] }).1.overflow = true :=
  (Like.like_parent_membership likeC4Model { wheres := [] } "p".data "unit_id".data
    { child_field := "unit_id".data, lookup := fun _ _ => ([2], true) }
    rfl rfl rfl rfl).2 (by decide)

/-- C10: a many-mode retrieval with a limit OR-s the model's overflow flag
with "at least limit rows came back" (so exactly limit rows already set it),
and neither `Source.retrieve` nor `Source.like` ever resets an already-true
overflow flag. -/
theorem Retrieve.overflow_accumulates
    (m : Retrieve.Model) (verify : Bool) (rows : List Nat) (l : Nat)
    (m2 : Like.Model) (q : Like.Query) :
    (m.mode = "many".data → m._limit = some l →
      Retrieve.retrieve m verify rows
        = .ok (some { m with
            models := rows,
            overflow := m.overflow || decide (l ≤ rows.length),
            record := none,
            action := "update".data })
      ∧ (rows.length = l →
          (m.overflow || decide (l ≤ rows.length)) = true))
    ∧ (m.overflow = true → ∀ m', Retrieve.retrieve m verify rows = .ok (some m') →
        m'.overflow = true)
    ∧ (m2.overflow = true → (Like.like m2 q).1.overflow = true) := by
  refine ⟨?_, ?_, ?_⟩
  · intro hmode hlim
    have hone : ¬ m.mode = "one".data := by rw [hmode]; decide
    constructor
    · simp [Retrieve.retrieve, hone, hlim]
    · intro hl; simp [hl]
  · intro hov m' hres
    unfold Retrieve.retrieve at hres
    split at hres
    · simp at hres
    · split at hres
      · split at hres
        · split at hres
          · simp at hres
          · simp at hres
        · simp only [Except.ok.injEq, Option.some.injEq] at hres
          rw [← hres]
          exact hov
      · simp only [Except.ok.injEq, Option.some.injEq] at hres
        rw [← hres]
        cases hl : m._limit with
        | none => simpa [hl] using hov
        | some l2 => simp [hl, hov]
  · intro hov2
    cases hl : m2._like with
    | none => simpa [Like.like, hl] using hov2
    | some t =>
      obtain ⟨extra, ov', heq, h1, h2⟩ :=
        Like.foldl_likeStep_spec m2 t m2._titles [] m2.overflow
      simp [Like.like, hl, heq, h2 hov2]

/-- Witness for C10: a many-mode retrieval with limit 2 that returns exactly
2 rows comes back with the overflow flag set. -/
theorem Retrieve.overflow_accumulates_witness :
    Retrieve.retrieve
      { mode := "many".data, role := "".data, _limit := some 2, overflow := false,
        record := none, models := [], action := "retrieve".data } true [5, 6]
      = .ok (some
        { mode := "many".data, role := "".data, _limit := some 2, overflow := true,
          record := none, models := [5, 6], action := "update".data }) :=
  ((Retrieve.overflow_accumulates
    { mode := "many".data, role := "".data, _limit := some 2, overflow := false,
      record := none, models := [], action := "retrieve".data } true [5, 6] 2
    { _like := none, _titles := [],
      fields := fun _ => { name := [], store := [], titles := [], extract := [] },
      parents := [], _chunk := 0, overflow := false }
    { wheres := [] }).1 rfl rfl).1

example :
    Mig.proj migTestBefore migTestDelta
      = [("fee".data, "fee".data), ("foe".data, "foe".data),
         ("id".data, "id".data), ("name".data, "name".data)] := by decide

example :
    Mig.afterFields migTestBefore migTestDelta
      = [{ name := "id".data, store := "id".data, kind := "int".data },
         { name := "name".data, store := "name".data, kind := "str".data },
         { name := "fum".data, store := "foe".data, kind := "float".data },
         { name := "fee".data, store := "fee".data, kind := "int".data }] := by decide

/-- C1: any delta with a field removal or change forces the rebuild sequence:
some additive `ALTER`s, then exactly one rename-to-`_old_<table>`, then only
index drops, then exactly one `CREATE TABLE` of the after-state definition,
then only index/unique re-creations, then exactly one `INSERT … SELECT` whose
projection is the sorted intersection of old and new column names each aliased
to itself, then exactly one `DROP TABLE` of the temporary name. -/
theorem Mig.model_change_rebuild (before : Mig.TableDef) (d : Mig.Delta)
    (h : d.fieldsRemove ≠ [] ∨ d.fieldsChange ≠ []) :
    (∃ A B C,
      Mig.model_change before d
        = A ++ [Mig.Stmt.renameTable before.table ("_old_".data ++ before.table)]
          ++ B ++ [Mig.Stmt.createTable d.table (Mig.afterFields before d)]
          ++ C ++ [Mig.Stmt.insertSelect d.table (Mig.proj before d) ("_old_".data ++ before.table),
                   Mig.Stmt.dropTable ("_old_".data ++ before.table)]
      ∧ (∀ s ∈ A, ∃ f, s = Mig.Stmt.alterAdd before.table f)
      ∧ (∀ s ∈ B, ∃ n, s = Mig.Stmt.dropIndex n)
      ∧ (∀ s ∈ C, (∃ n cs, s = Mig.Stmt.createUnique n cs) ∨ (∃ n cs, s = Mig.Stmt.createIndex n cs)))
    ∧ (Mig.model_change before d).countP Mig.isRenameTable = 1
    ∧ (Mig.model_change before d).countP Mig.isCreateTable = 1
    ∧ (Mig.model_change before d).countP Mig.isInsertSelect = 1
    ∧ (Mig.model_change before d).countP Mig.isDropTable = 1
    ∧ Mig.proj before d
        = (sortStrL (((before.fields ++ d.fieldsAdd).map (fun f => f.store)).filter
            (fun c => ((Mig.afterFields before d).map (fun f => f.store)).contains c))).map
          (fun c => (c, c)) := by
  have hcond : ¬ (d.fieldsRemove.isEmpty = true ∧ d.fieldsChange.isEmpty = true) := by
    rcases h with h | h
    · intro hc
      exact h (List.isEmpty_iff.mp hc.1)
    · intro hc
      exact h (List.isEmpty_iff.mp hc.2)
  have hmc :
      Mig.model_change before d
        = d.fieldsAdd.map (fun f => Mig.Stmt.alterAdd before.table f)
          ++ [Mig.Stmt.renameTable before.table ("_old_".data ++ before.table)]
          ++ (before.uniques ++ before.indexes).map
              (fun c => Mig.Stmt.dropIndex (Mig.idxName before.table c.1))
          ++ [Mig.Stmt.createTable d.table (Mig.afterFields before d)]
          ++ ((Mig.afterCons before.uniques d.uniqueRemove d.uniqueRename d.uniqueAdd).map
                (fun c => Mig.Stmt.createUnique (Mig.idxName d.table c.1) c.2)
              ++ (Mig.afterCons before.indexes d.indexRemove d.indexRename d.indexAdd).map
                (fun c => Mig.Stmt.createIndex (Mig.idxName d.table c.1) c.2))
          ++ [Mig.Stmt.insertSelect d.table (Mig.proj before d) ("_old_".data ++ before.table),
              Mig.Stmt.dropTable ("_old_".data ++ before.table)] := by
    simp only [Mig.model_change, hcond, if_false, List.append_assoc]
    simp [List.append_assoc]
  refine ⟨⟨_, _, _, hmc, ?_, ?_, ?_⟩, ?_, ?_, ?_, ?_, rfl⟩
  · intro s hs
    rcases List.mem_map.mp hs with ⟨f, _, rfl⟩
    exact ⟨f, rfl⟩
  · intro s hs
    rcases List.mem_map.mp hs with ⟨c, _, rfl⟩
    exact ⟨_, rfl⟩
  · intro s hs
    rcases List.mem_append.mp hs with hs | hs
    · rcases List.mem_map.mp hs with ⟨c, _, rfl⟩
      exact Or.inl ⟨_, _, rfl⟩
    · rcases List.mem_map.mp hs with ⟨c, _, rfl⟩
      exact Or.inr ⟨_, _, rfl⟩
  all_goals
    rw [hmc]
    simp [List.countP_append, List.countP_map, List.countP_eq_zero, Function.comp_def,
      Mig.isRenameTable, Mig.isCreateTable, Mig.isInsertSelect, Mig.isDropTable,
      List.countP_cons, List.countP_false]

/-- Witness for C1 at the repository's `test_model_change` input. -/
theorem Mig.model_change_rebuild_witness :
    (Mig.model_change migTestBefore migTestDelta).countP Mig.isRenameTable = 1
    ∧ (Mig.model_change migTestBefore migTestDelta).countP Mig.isCreateTable = 1
    ∧ (Mig.model_change migTestBefore migTestDelta).countP Mig.isInsertSelect = 1
    ∧ (Mig.model_change migTestBefore migTestDelta).countP Mig.isDropTable = 1 :=
  let h := Mig.model_change_rebuild migTestBefore migTestDelta (Or.inl (by decide))
  ⟨h.2.1, h.2.2.1, h.2.2.2.1, h.2.2.2.2.1⟩

theorem Ledger.lastSplit_migSep_none (s : Str) (h : ∀ c ∈ s, c ≠ '/') :
    lastSplit Ledger.migSep s = none := by
  induction s with
  | nil => rfl
  | cons c rest ih =>
    have hc : c ≠ '/' := h c (by simp)
    have hrest := ih (fun x hx => h x (by simp [hx]))
    simp only [lastSplit, hrest]
    have hpre : Ledger.migSep.isPrefixOf (c :: rest) = false := by
      show (('/' :: "migration-".data).isPrefixOf (c :: rest)) = false
      simp [List.isPrefixOf]
      intro hc'
      exact absurd hc'.symm hc
    simp [hpre]

theorem Ledger.lastSplit_migSep_append (xs ys : Str) (hy : ∀ c ∈ ys, c ≠ '/') :
    lastSplit Ledger.migSep (xs ++ Ledger.migSep ++ ys) = some (xs, ys) := by
  induction xs with
  | nil =>
    have hys : lastSplit Ledger.migSep ys = none := Ledger.lastSplit_migSep_none ys hy
    show lastSplit Ledger.migSep ('/' :: ("migration-".data ++ ys)) = some ([], ys)
    simp only [Ledger.migSep] at hys
    simp [lastSplit, List.isPrefixOf, Ledger.migSep, hys]
  | cons x xs ih =>
    show lastSplit Ledger.migSep (x :: (xs ++ Ledger.migSep ++ ys)) = some (x :: xs, ys)
    simp only [lastSplit, ih]

theorem takeWhile_no_dot (s rest : Str) (h : ∀ c ∈ s, c ≠ '.') :
    (s ++ '.' :: rest).takeWhile (fun c => c != '.') = s := by
  induction s with
  | nil => simp
  | cons c cs ih =>
    have hc : (c != '.') = true := by
      simpa using h c (by simp)
    simp only [List.cons_append, List.takeWhile_cons, hc, if_true]
    rw [ih (fun x hx => h x (by simp [hx]))]

theorem Ledger.extractStamp_mkMigPath (dir s : Str)
    (hs : ∀ c ∈ s, c ≠ '/') (hd : ∀ c ∈ s, c ≠ '.') :
    Ledger.extractStamp (Ledger.mkMigPath dir s) = s := by
  have hys : ∀ c ∈ s ++ ".sql".data, c ≠ '/' := by
    intro c hc
    rcases List.mem_append.mp hc with hc | hc
    · exact hs c hc
    · exact (by decide : ∀ x ∈ ".sql".data, x ≠ '/') c hc
  have hsplit :
      lastSplit Ledger.migSep (dir ++ Ledger.migSep ++ (s ++ ".sql".data))
        = some (dir, s ++ ".sql".data) :=
    Ledger.lastSplit_migSep_append dir (s ++ ".sql".data) hys
  have hpath : Ledger.mkMigPath dir s = dir ++ Ledger.migSep ++ (s ++ ".sql".data) := by
    simp [Ledger.mkMigPath, List.append_assoc]
  rw [Ledger.extractStamp, hpath, hsplit]
  exact takeWhile_no_dot s "sql".data hd

theorem Ledger.migrateLoop_no_fail (snapshot : List Str) (ps : List Str) (r : Ledger.MigRes) :
    Ledger.migrateLoop snapshot [] ps r =
      { ledger := r.ledger
          ++ (ps.filter (fun p => decide (Ledger.extractStamp p ∉ snapshot))).map Ledger.extractStamp,
        acts := r.acts ++ ps.flatMap (fun p =>
          if Ledger.extractStamp p ∈ snapshot then []
          else [.insertOne (Ledger.extractStamp p), .commit, .load p]),
        migrated := r.migrated || ps.any (fun p => decide (Ledger.extractStamp p ∉ snapshot)),
        failed := r.failed } := by
  induction ps generalizing r with
  | nil => simp [Ledger.migrateLoop]
  | cons p ps ih =>
    by_cases hp : Ledger.extractStamp p ∈ snapshot
    · simp [Ledger.migrateLoop, hp, ih]
    · simp [Ledger.migrateLoop, hp, ih]

theorem Ledger.migrateLoop_failed (snapshot fails : List Str) (ps : List Str) :
    ∀ r : Ledger.MigRes, r.failed = none →
      ∀ p, (Ledger.migrateLoop snapshot fails ps r).failed = some p →
        Ledger.extractStamp p ∈ (Ledger.migrateLoop snapshot fails ps r).ledger := by
  induction ps with
  | nil =>
    intro r hr p hres
    simp only [Ledger.migrateLoop] at hres
    rw [hr] at hres
    cases hres
  | cons q ps ih =>
    intro r hr p hres
    by_cases hq : Ledger.extractStamp q ∈ snapshot
    · have heq : Ledger.migrateLoop snapshot fails (q :: ps) r
          = Ledger.migrateLoop snapshot fails ps r := by
        simp [Ledger.migrateLoop, hq]
      rw [heq] at hres ⊢
      exact ih r hr p hres
    · by_cases hf : q ∈ fails
      · have heq : Ledger.migrateLoop snapshot fails (q :: ps) r
            = { r with ledger := r.ledger ++ [Ledger.extractStamp q],
                       acts := r.acts ++ [.insertOne (Ledger.extractStamp q), .commit],
                       failed := some q } := by
          simp [Ledger.migrateLoop, hq, hf]
        rw [heq] at hres ⊢
        have hqp : q = p := by simpa using hres
        subst hqp
        simp
      · have heq : Ledger.migrateLoop snapshot fails (q :: ps) r
            = Ledger.migrateLoop snapshot fails ps
                { r with ledger := r.ledger ++ [Ledger.extractStamp q],
                         acts := r.acts ++ [.insertOne (Ledger.extractStamp q), .commit, .load q],
                         migrated := true } := by
          simp [Ledger.migrateLoop, hq, hf]
        rw [heq] at hres ⊢
        exact ih { r with ledger := r.ledger ++ [Ledger.extractStamp q],
                          acts := r.acts ++ [.insertOne (Ledger.extractStamp q), .commit, .load q],
                          migrated := true } hr p hres

theorem flatMap_eq_nil_of_forall {α β : Type} (l : List α) (f : α → List β)
    (h : ∀ a ∈ l, f a = []) : l.flatMap f = [] := by
  induction l with
  | nil => rfl
  | cons a as ih =>
    simp only [List.flatMap_cons, h a (by simp), List.nil_append]
    exact ih (fun x hx => h x (by simp [hx]))

theorem any_eq_false_of_forall {α : Type} (l : List α) (f : α → Bool)
    (h : ∀ a ∈ l, f a = false) : l.any f = false := by
  induction l with
  | nil => rfl
  | cons a as ih =>
    simp only [List.any_cons, h a (by simp), Bool.false_or]
    exact ih (fun x hx => h x (by simp [hx]))

/-- C2: on a fresh database (empty ledger), one run of `Source.migrate`
performs exactly: the ledger-table define, one batch insert containing the
sentinel `"definition"` stamp and every known migration stamp, one commit, and
the load of the consolidated baseline `definition.sql` — no per-stamp payload
is loaded — and returns true; an immediately repeated run performs only the
idempotent define (inserts nothing, loads nothing) and returns false. -/
theorem Ledger.migrate_cold_start (dir : Str) (stamps : List Str)
    (hclean : ∀ s ∈ stamps, (∀ c ∈ s, c ≠ '/') ∧ (∀ c ∈ s, c ≠ '.')) :
    (Ledger.migrate dir (stamps.map (Ledger.mkMigPath dir)) [] []).acts
      = [.define,
         .insertBatch ("definition".data ::
           (sortStrL (stamps.map (Ledger.mkMigPath dir))).map Ledger.extractStamp),
         .commit, .load (Ledger.defPath dir)]
    ∧ (Ledger.migrate dir (stamps.map (Ledger.mkMigPath dir)) [] []).migrated = true
    ∧ (∀ s ∈ stamps,
        s ∈ (Ledger.migrate dir (stamps.map (Ledger.mkMigPath dir)) [] []).ledger)
    ∧ (Ledger.migrate dir (stamps.map (Ledger.mkMigPath dir))
        (Ledger.migrate dir (stamps.map (Ledger.mkMigPath dir)) [] []).ledger []).acts
      = [.define]
    ∧ (Ledger.migrate dir (stamps.map (Ledger.mkMigPath dir))
        (Ledger.migrate dir (stamps.map (Ledger.mkMigPath dir)) [] []).ledger []).migrated
      = false := by
  have hr1 : Ledger.migrate dir (stamps.map (Ledger.mkMigPath dir)) [] []
      = { ledger := "definition".data ::
            (sortStrL (stamps.map (Ledger.mkMigPath dir))).map Ledger.extractStamp,
          acts := [.define,
            .insertBatch ("definition".data ::
              (sortStrL (stamps.map (Ledger.mkMigPath dir))).map Ledger.extractStamp),
            .commit, .load (Ledger.defPath dir)],
          migrated := true, failed := none } := by
    simp [Ledger.migrate]
  have hmemext : ∀ p ∈ sortStrL (stamps.map (Ledger.mkMigPath dir)),
      Ledger.extractStamp p ∈ "definition".data ::
        (sortStrL (stamps.map (Ledger.mkMigPath dir))).map Ledger.extractStamp := by
    intro p hp
    exact List.mem_cons.mpr (Or.inr (List.mem_map_of_mem _ hp))
  have hr2 : Ledger.migrate dir (stamps.map (Ledger.mkMigPath dir))
      (Ledger.migrate dir (stamps.map (Ledger.mkMigPath dir)) [] []).ledger []
      = Ledger.migrateLoop
          ("definition".data ::
            (sortStrL (stamps.map (Ledger.mkMigPath dir))).map Ledger.extractStamp) []
          (sortStrL (stamps.map (Ledger.mkMigPath dir)))
          { ledger := "definition".data ::
              (sortStrL (stamps.map (Ledger.mkMigPath dir))).map Ledger.extractStamp,
            acts := [.define], migrated := false, failed := none } := by
    rw [hr1]
    simp [Ledger.migrate]
  refine ⟨by rw [hr1], by rw [hr1], ?_, ?_, ?_⟩
  · intro s hs
    rw [hr1]
    refine List.mem_cons.mpr (Or.inr ?_)
    refine List.mem_map.mpr ⟨Ledger.mkMigPath dir s, ?_, ?_⟩
    · exact (mem_sortStrL _ _).mpr (List.mem_map_of_mem _ hs)
    · exact Ledger.extractStamp_mkMigPath dir s (hclean s hs).1 (hclean s hs).2
  · rw [hr2, Ledger.migrateLoop_no_fail]
    simp only
    rw [flatMap_eq_nil_of_forall]
    · simp
    · intro p hp
      simp [hmemext p hp]
  · rw [hr2, Ledger.migrateLoop_no_fail]
    simp only
    rw [any_eq_false_of_forall]
    · simp
    · intro p hp
      simp [hmemext p hp]

/-- Witness for C2 at the spec's scenario: two stamps `S1`, `S2`. -/
theorem Ledger.migrate_cold_start_witness :
    (Ledger.migrate "ddl".data
      (["S1".data, "S2".data].map (Ledger.mkMigPath "ddl".data)) [] []).migrated = true
    ∧ (Ledger.migrate "ddl".data
        (["S1".data, "S2".data].map (Ledger.mkMigPath "ddl".data))
        (Ledger.migrate "ddl".data
          (["S1".data, "S2".data].map (Ledger.mkMigPath "ddl".data)) [] []).ledger []).migrated
      = false :=
  let h := Ledger.migrate_cold_start "ddl".data ["S1".data, "S2".data] (by decide)
  ⟨h.2.1, h.2.2.2.2⟩

/-- C3 counterexample: with ledger `["definition"]` and migration files for
stamps `"1"` and `"1-2"`, `Source.migrate` processes stamp `"1-2"` before
stamp `"1"`, because `sorted(glob(...))` orders the file paths and
`"d/migration-1-2.sql" < "d/migration-1.sql"` (`'-' < '.'`) while
`"1" < "1-2"` as stamps — so the files are not processed in ascending stamp
order. -/
theorem Ledger.migrate_stamp_order_counterexample :
    (Ledger.migrate "d".data ["d/migration-1.sql".data, "d/migration-1-2.sql".data]
      ["definition".data] []).acts
      = [.define,
         .insertOne "1-2".data, .commit, .load "d/migration-1-2.sql".data,
         .insertOne "1".data, .commit, .load "d/migration-1.sql".data]
    ∧ lexLe "1".data "1-2".data = true
    ∧ "1".data ≠ "1-2".data := by
  refine ⟨by decide, by decide, by decide⟩

/-- C3 (amended): with a non-empty ledger, `Source.migrate` processes the
migration files in ascending file-path order; for each file whose stamp is not
in the ledger snapshot it inserts the stamp row and commits, and only
afterwards loads that migration's payload, before moving to the next file; a
load that raises leaves the already-committed stamp in the ledger. -/
theorem Ledger.migrate_partial_ledger (dir : Str) (paths : List Str)
    (db fails : List Str) (hdb : db ≠ []) :
    (Ledger.migrate dir paths db []).acts
      = .define :: (sortStrL paths).flatMap (fun p =>
          if Ledger.extractStamp p ∈ db then []
          else [.insertOne (Ledger.extractStamp p), .commit, .load p])
    ∧ Ascending (sortStrL paths)
    ∧ (∀ p, (Ledger.migrate dir paths db fails).failed = some p →
        Ledger.extractStamp p ∈ (Ledger.migrate dir paths db fails).ledger) := by
  have hie : db.isEmpty = false := by
    cases db with
    | nil => exact absurd rfl hdb
    | cons a as => rfl
  refine ⟨?_, sortStrL_ascending paths, ?_⟩
  · rw [show Ledger.migrate dir paths db []
        = Ledger.migrateLoop db [] (sortStrL paths)
            { ledger := db, acts := [.define], migrated := false, failed := none } from by
      simp [Ledger.migrate, hie]]
    rw [Ledger.migrateLoop_no_fail]
    rfl
  · intro p hp
    rw [show Ledger.migrate dir paths db fails
        = Ledger.migrateLoop db fails (sortStrL paths)
            { ledger := db, acts := [.define], migrated := false, failed := none } from by
      simp [Ledger.migrate, hie]] at hp ⊢
    exact Ledger.migrateLoop_failed db fails (sortStrL paths) _ rfl p hp

/-- Witness for the amended C3: ledger `["definition"]`, fresh stamps `1` and
`2`, and a failing load for stamp `2`: both stamps' inserts precede their
loads, and after the failure stamp `2` is already recorded. -/
theorem Ledger.migrate_partial_ledger_witness :
    (Ledger.migrate "d".data ["d/migration-2.sql".data, "d/migration-1.sql".data]
      ["definition".data] []).acts
      = [.define, .insertOne "1".data, .commit, .load "d/migration-1.sql".data,
         .insertOne "2".data, .commit, .load "d/migration-2.sql".data] :=
  (Ledger.migrate_partial_ledger "d".data
    ["d/migration-2.sql".data, "d/migration-1.sql".data]
    ["definition".data] [] (by decide)).1
